import Mathlib

/-!
Verification of the streaming ingestion pipeline of the
`pulse8-react-frontend-component-for-k8` chat component library.

The TypeScript sources are shallowly embedded: JavaScript strings are
modelled as `List Char`, the mutable parser/adapter closures as explicit
state-passing functions, JSON values (results of the host `JSON.parse`)
as the inductive `Json`, and the absence value `null` as `Json.null`
(faithful to JavaScript, where `JSON.parse "null"` *is* the value `null`).
-/

namespace Pulse8

/-! ## JavaScript string primitives -/

/-- Whitespace recognised by `String.prototype.trim` (ECMAScript WhiteSpace
and LineTerminator code points, including the Zs space separators). -/
def isJsWhitespace (c : Char) : Bool :=
  c = ' ' ∨ c = '\t' ∨ c = '\n' ∨ c = '\r' ∨
  c.val = 0x0b ∨ c.val = 0x0c ∨ c.val = 0xa0 ∨ c.val = 0xfeff ∨
  c.val = 0x1680 ∨ (0x2000 ≤ c.val ∧ c.val ≤ 0x200a) ∨
  c.val = 0x2028 ∨ c.val = 0x2029 ∨ c.val = 0x202f ∨ c.val = 0x205f ∨
  c.val = 0x3000

/-- Model of `String.prototype.trim`: strip leading and trailing whitespace. -/
def jsTrim (s : List Char) : List Char :=
  ((s.dropWhile isJsWhitespace).reverse.dropWhile isJsWhitespace).reverse

/-- Model of `String.prototype.split('\n')` (JavaScript semantics: a string
with `n` line feeds yields `n + 1` parts, so the result is never empty). -/
def splitNL : List Char → List (List Char)
  | [] => [[]]
  | c :: cs =>
    let ps := splitNL cs
    if c = '\n' then [] :: ps
    else (c :: ps.headD []) :: ps.tail

/-! ## Incremental SSE line splitter (`createSSEParser`, src/utils/streaming.ts) -/

/-- The single mutable `buffer` captured by the closure `createSSEParser` returns. -/
structure SSEParserState where
  buffer : List Char
deriving DecidableEq

/-- Fresh parser state: `let buffer = ''`. -/
def sseInit : SSEParserState := ⟨[]⟩

/-- One call to `feed(chunk)`: append the chunk to the buffer, split on
line feeds, keep the last (possibly incomplete) part as the new buffer and
hand every complete line, in order, to the line processing below.  Returns
the list of complete lines together with the successor state. -/
def feed (st : SSEParserState) (chunk : List Char) : List (List Char) × SSEParserState :=
  let lines := splitNL (st.buffer ++ chunk)
  (lines.dropLast, ⟨lines.getLastD []⟩)

/-- Feeding a whole sequence of chunks, concatenating the processed lines. -/
def feedAll (st : SSEParserState) : List (List Char) → List (List Char) × SSEParserState
  | [] => ([], st)
  | ch :: rest =>
    let r1 := feed st ch
    let r2 := feedAll r1.2 rest
    (r1.1 ++ r2.1, r2.2)

/-- Specification-side description of the retained buffer: the suffix of the
input after its last line-feed character (the whole input when it has none). -/
def tailAfterLastNL (s : List Char) : List Char :=
  (s.reverse.takeWhile (fun c => ¬ (c = '\n'))).reverse

/-! ### Splitter lemmas

`splitLines` is a helper recursion computing the complete lines and the
remainder in one pass; we relate it to the source's `split`/`pop` pair and
prove the chunk-invariance properties on it. -/

/-- One character step of the line splitter, processed front to back. -/
def splitStep (c : Char) (p : List (List Char) × List Char) : List (List Char) × List Char :=
  if c = '\n' then ([] :: p.1, p.2)
  else
    match p.1 with
    | [] => ([], c :: p.2)
    | h :: t => ((c :: h) :: t, p.2)

/-- Complete lines and trailing remainder of a string, in one pass. -/
def splitLines : List Char → List (List Char) × List Char
  | [] => ([], [])
  | c :: cs => splitStep c (splitLines cs)

theorem splitNL_eq_splitLines (s : List Char) :
    splitNL s = (splitLines s).1 ++ [(splitLines s).2] := by
  induction s with
  | nil => rfl
  | cons c cs ih =>
    simp only [splitNL, splitLines, splitStep]
    by_cases h : c = '\n'
    · simp [h, ih]
    · simp only [h, if_false]
      cases hls : (splitLines cs).1 with
      | nil => simp [ih, hls]
      | cons l ls => simp [ih, hls]

theorem splitLines_append (x y : List Char) :
    splitLines (x ++ y) =
      ((splitLines x).1 ++ (splitLines ((splitLines x).2 ++ y)).1,
        (splitLines ((splitLines x).2 ++ y)).2) := by
  induction x with
  | nil => simp [splitLines]
  | cons c cs ih =>
    show splitStep c (splitLines (cs ++ y)) = _
    rw [ih]
    by_cases h : c = '\n'
    · subst h
      simp [splitLines, splitStep]
    · cases hls : (splitLines cs).1 with
      | nil =>
        simp only [splitLines, splitStep, hls, if_neg h, List.nil_append, List.cons_append]
      | cons l ls =>
        simp only [splitLines, splitStep, hls, if_neg h, List.cons_append]

theorem splitLines_nlfree (s : List Char) (h : ∀ c ∈ s, ¬ (c = '\n')) :
    splitLines s = ([], s) := by
  induction s with
  | nil => rfl
  | cons c cs ih =>
    have hc : ¬ (c = '\n') := h c (List.mem_cons_self c cs)
    have ih' := ih (fun d hd => h d (List.mem_cons_of_mem c hd))
    simp [splitLines, splitStep, hc, ih']

theorem splitLines_remainder_nlfree (s : List Char) :
    ∀ c ∈ (splitLines s).2, ¬ (c = '\n') := by
  induction s with
  | nil => intro c hc; simp [splitLines] at hc
  | cons c cs ih =>
    intro d hd
    simp only [splitLines, splitStep] at hd
    by_cases h : c = '\n'
    · simp [h] at hd; exact ih d hd
    · cases hls : (splitLines cs).1 with
      | nil =>
        simp [h, hls] at hd
        rcases hd with hd | hd
        · simpa [hd] using h
        · exact ih d hd
      | cons l ls =>
        simp [h, hls] at hd
        exact ih d hd

theorem splitLines_snoc (s : List Char) (c : Char) :
    splitLines (s ++ [c]) =
      if c = '\n' then ((splitLines s).1 ++ [(splitLines s).2], [])
      else ((splitLines s).1, (splitLines s).2 ++ [c]) := by
  have hb := splitLines_remainder_nlfree s
  rw [splitLines_append]
  by_cases h : c = '\n'
  · have : splitLines ((splitLines s).2 ++ ['\n']) = ([(splitLines s).2], []) := by
      generalize hx : (splitLines s).2 = b at hb
      clear hx
      induction b with
      | nil => rfl
      | cons d ds ih =>
        have hd : ¬ (d = '\n') := hb d (List.mem_cons_self d ds)
        have ih' := ih (fun e he => hb e (List.mem_cons_of_mem d he))
        simp [splitLines, ih', splitStep, hd]
    simp [h, this]
  · have hfree : ∀ d ∈ (splitLines s).2 ++ [c], ¬ (d = '\n') := by
      intro d hd
      rcases List.mem_append.mp hd with hd | hd
      · exact hb d hd
      · simp at hd; simpa [hd] using h
    simp [h, splitLines_nlfree _ hfree]

theorem splitLines_remainder_eq_tail (s : List Char) :
    (splitLines s).2 = tailAfterLastNL s := by
  induction s using List.reverseRecOn with
  | nil => rfl
  | append_singleton s c ih =>
    rw [splitLines_snoc, tailAfterLastNL]
    by_cases h : c = '\n'
    · simp [h, tailAfterLastNL]
    · simp only [h, if_false, List.reverse_append, List.reverse_cons, List.reverse_nil,
        List.nil_append, List.cons_append, List.takeWhile]
      simp only [h, decide_not, decide_eq_true_eq]
      simp [ih, tailAfterLastNL]

theorem feed_eq_splitLines (st : SSEParserState) (chunk : List Char) :
    feed st chunk = ((splitLines (st.buffer ++ chunk)).1, ⟨(splitLines (st.buffer ++ chunk)).2⟩) := by
  have h := splitNL_eq_splitLines (st.buffer ++ chunk)
  simp [feed, h]

/-- Binary composition law: one `feed` of `a ++ b` equals `feed a` then `feed b`. -/
theorem feed_append (st : SSEParserState) (a b : List Char) :
    feed st (a ++ b) =
      ((feed st a).1 ++ (feed (feed st a).2 b).1, (feed (feed st a).2 b).2) := by
  simp only [feed_eq_splitLines]
  have h := splitLines_append (st.buffer ++ a) b
  simp only [List.append_assoc] at h
  simp [h]

theorem feedAll_eq_feed_join (chunks : List (List Char)) (st : SSEParserState)
    (hst : ∀ c ∈ st.buffer, ¬ (c = '\n')) :
    feedAll st chunks = feed st chunks.flatten := by
  induction chunks generalizing st with
  | nil =>
    simp [feedAll, feed_eq_splitLines, splitLines_nlfree st.buffer hst]
  | cons ch rest ih =>
    have hst' : ∀ c ∈ (feed st ch).2.buffer, ¬ (c = '\n') := by
      intro c hc
      rw [feed_eq_splitLines] at hc
      exact splitLines_remainder_nlfree _ c hc
    simp only [feedAll, List.flatten_cons, feed_append st ch rest.flatten, ih _ hst']

/-! ## JSON values and the host `JSON.parse` builtin

JSON values as produced by the JavaScript engine.  Numbers are kept as
their source lexeme (no claim inspects numeric values, and modelling
IEEE-754 is out of scope). -/

inductive Json where
  | null : Json
  | bool (b : Bool) : Json
  | num (lexeme : List Char) : Json
  | str (s : List Char) : Json
  | arr (items : List Json) : Json
  | obj (fields : List (List Char × Json)) : Json

instance : Inhabited Json := ⟨Json.null⟩

/-- JavaScript `value === null`. -/
def Json.isNull : Json → Bool
  | .null => true
  | _ => false

/-- JSON inter-token whitespace (RFC 8259: space, tab, line feed, carriage return). -/
def isJsonWs (c : Char) : Bool :=
  c = ' ' ∨ c = '\t' ∨ c = '\n' ∨ c = '\r'

def skipWs (s : List Char) : List Char := s.dropWhile isJsonWs

def isJsonDigit (c : Char) : Bool := '0' ≤ c ∧ c ≤ '9'

def hexVal (c : Char) : Option Nat :=
  if '0' ≤ c ∧ c ≤ '9' then some (c.toNat - '0'.toNat)
  else if 'a' ≤ c ∧ c ≤ 'f' then some (c.toNat - 'a'.toNat + 10)
  else if 'A' ≤ c ∧ c ≤ 'F' then some (c.toNat - 'A'.toNat + 10)
  else none

/-- Body of a JSON string literal, after the opening quote; returns the
decoded characters and the input after the closing quote.  `\uXXXX` escapes
become the code point (surrogate halves, invalid as scalar values, map to
the replacement behaviour of `Char.ofNat`; no claim exercises them). -/
def parseStringBody : Nat → List Char → Option (List Char × List Char)
  | 0, _ => none
  | _ + 1, [] => none
  | fuel + 1, c :: rest =>
    if c = '"' then some ([], rest)
    else if c = '\\' then
      match rest with
      | [] => none
      | e :: rest' =>
        let decoded : Option (Char × List Char) :=
          if e = '"' then some ('"', rest')
          else if e = '\\' then some ('\\', rest')
          else if e = '/' then some ('/', rest')
          else if e = 'b' then some (Char.ofNat 8, rest')
          else if e = 'f' then some (Char.ofNat 12, rest')
          else if e = 'n' then some ('\n', rest')
          else if e = 'r' then some ('\r', rest')
          else if e = 't' then some ('\t', rest')
          else if e = 'u' then
            match rest' with
            | h1 :: h2 :: h3 :: h4 :: rest'' =>
              match hexVal h1, hexVal h2, hexVal h3, hexVal h4 with
              | some v1, some v2, some v3, some v4 =>
                some (Char.ofNat (((v1 * 16 + v2) * 16 + v3) * 16 + v4), rest'')
              | _, _, _, _ => none
            | _ => none
          else none
        match decoded with
        | none => none
        | some (d, rest'') =>
          match parseStringBody fuel rest'' with
          | none => none
          | some (tail, rem) => some (d :: tail, rem)
    else if c.val < 0x20 then none
    else
      match parseStringBody fuel rest with
      | none => none
      | some (tail, rem) => some (c :: tail, rem)

/-- JSON number lexeme: `-? int frac? exp?`; returns the lexeme and the rest. -/
def parseNumberLexeme (s : List Char) : Option (List Char × List Char) :=
  let (neg, s1) : List Char × List Char :=
    match s with
    | '-' :: r => (['-'], r)
    | _ => ([], s)
  match s1 with
  | '0' :: r =>
    some (neg ++ ['0'], r)
  | c :: _ =>
    if isJsonDigit c ∧ ¬ (c = '0') then
      some (neg ++ s1.takeWhile isJsonDigit, s1.dropWhile isJsonDigit)
    else none
  | [] => none

/-- Optional fraction part `.digits`. -/
def parseFrac (s : List Char) : Option (List Char × List Char) :=
  match s with
  | '.' :: r =>
    match r with
    | c :: _ =>
      if isJsonDigit c then some ('.' :: r.takeWhile isJsonDigit, r.dropWhile isJsonDigit)
      else none
    | [] => none
  | _ => some ([], s)

/-- Optional exponent part `[eE][+-]?digits`. -/
def parseExp (s : List Char) : Option (List Char × List Char) :=
  match s with
  | e :: r =>
    if e = 'e' ∨ e = 'E' then
      let (sgn, r1) : List Char × List Char :=
        match r with
        | '+' :: r' => (['+'], r')
        | '-' :: r' => (['-'], r')
        | _ => ([], r)
      match r1 with
      | c :: _ =>
        if isJsonDigit c then some (e :: sgn ++ r1.takeWhile isJsonDigit, r1.dropWhile isJsonDigit)
        else none
      | [] => none
    else some ([], s)
  | [] => some ([], s)

def parseNumber (s : List Char) : Option (List Char × List Char) :=
  match parseNumberLexeme s with
  | none => none
  | some (intPart, r1) =>
    match parseFrac r1 with
    | none => none
    | some (fracPart, r2) =>
      match parseExp r2 with
      | none => none
      | some (expPart, r3) => some (intPart ++ fracPart ++ expPart, r3)

mutual
/-- Recursive-descent model of the host `JSON.parse` value grammar; the
input is positioned at the first non-whitespace character of a value.
The fuel argument only forces termination (one unit per recursive call;
callers hand in more fuel than the input length, which a descent that
always consumes at least one character per call can never exhaust). -/
def parseJsonValue : Nat → List Char → Option (Json × List Char)
  | 0, _ => none
  | fuel + 1, s =>
    match s with
    | 'n' :: 'u' :: 'l' :: 'l' :: rest => some (.null, rest)
    | 't' :: 'r' :: 'u' :: 'e' :: rest => some (.bool true, rest)
    | 'f' :: 'a' :: 'l' :: 's' :: 'e' :: rest => some (.bool false, rest)
    | '"' :: rest =>
      match parseStringBody (fuel + 1) rest with
      | none => none
      | some (chars, rem) => some (.str chars, rem)
    | '[' :: rest =>
      let r1 := skipWs rest
      match r1 with
      | ']' :: rem => some (.arr [], rem)
      | _ => parseJsonArrayItems fuel r1 []
    | c :: rest =>
      if c.val = 123 then
        let r1 := skipWs rest
        match r1 with
        | d :: rem =>
          if d.val = 125 then some (.obj [], rem)
          else parseJsonObjectItems fuel r1 []
        | [] => none
      else if c = '-' ∨ isJsonDigit c then
        match parseNumber (c :: rest) with
        | none => none
        | some (lexeme, rem) => some (.num lexeme, rem)
      else none
    | [] => none

/-- Comma-separated array elements, positioned at a value; `acc` holds the
items parsed so far, in reverse. -/
def parseJsonArrayItems : Nat → List Char → List Json → Option (Json × List Char)
  | 0, _, _ => none
  | fuel + 1, s, acc =>
    match parseJsonValue fuel s with
    | none => none
    | some (v, r1) =>
      match skipWs r1 with
      | ']' :: rem => some (.arr (acc ++ [v]), rem)
      | ',' :: r2 => parseJsonArrayItems fuel (skipWs r2) (acc ++ [v])
      | _ => none

/-- Comma-separated object members, positioned at a key string. -/
def parseJsonObjectItems : Nat → List Char → List (List Char × Json) → Option (Json × List Char)
  | 0, _, _ => none
  | fuel + 1, s, acc =>
    match s with
    | '"' :: rest =>
      match parseStringBody (fuel + 1) rest with
      | none => none
      | some (key, r1) =>
        match skipWs r1 with
        | ':' :: r2 =>
          match parseJsonValue fuel (skipWs r2) with
          | none => none
          | some (v, r3) =>
            match skipWs r3 with
            | c :: rem =>
              if c.val = 125 then some (.obj (acc ++ [(key, v)]), rem)
              else if c = ',' then parseJsonObjectItems fuel (skipWs rem) (acc ++ [(key, v)])
              else none
            | [] => none
        | _ => none
    | _ => none
end

/-- Model of the host builtin `JSON.parse`: `none` models a thrown
`SyntaxError`.  (The builtin is part of the JavaScript platform, not of
this repository; it is embedded here as an executable parser of the
RFC 8259 grammar.) -/
def jsonParse (s : List Char) : Option Json :=
  match parseJsonValue (s.length + 1) (skipWs s) with
  | none => none
  | some (v, rest) => if skipWs rest = [] then some v else none

/-! ## Guarded decoder (`safeJsonParse`, src/utils/streaming.ts) -/

/-- Maximum allowed size for JSON payloads in bytes (1MB default). -/
def DEFAULT_MAX_JSON_SIZE : Nat := 1024 * 1024

/-- Maximum allowed nesting depth for JSON objects (100 levels default). -/
def DEFAULT_MAX_JSON_DEPTH : Nat := 100

/-- UTF-8 encoded length of one code point (what `new Blob([s]).size` sums). -/
def utf8CharLen (c : Char) : Nat :=
  if c.val ≤ 0x7f then 1
  else if c.val ≤ 0x7ff then 2
  else if c.val ≤ 0xffff then 3
  else 4

/-- Model of `new Blob([jsonString]).size`: the UTF-8 byte length. -/
def blobByteSize (s : List Char) : Nat := (s.map utf8CharLen).sum

/-- `checkJsonSize`: true when the byte size is acceptable. -/
def checkJsonSize (jsonString : List Char) (maxSize : Nat) : Bool :=
  blobByteSize jsonString ≤ maxSize

mutual
/-- `checkJsonDepth(obj, maxDepth, currentDepth)`: false as soon as a value
is visited at a recursion depth beyond the limit; arrays and objects visit
their elements one level deeper. -/
def checkJsonDepth (obj : Json) (maxDepth currentDepth : Nat) : Bool :=
  if currentDepth > maxDepth then false
  else
    match obj with
    | .arr items => checkJsonDepthItems items maxDepth (currentDepth + 1)
    | .obj fields => checkJsonDepthFields fields maxDepth (currentDepth + 1)
    | _ => true

/-- The `for (const item of obj)` loop of `checkJsonDepth` over an array. -/
def checkJsonDepthItems (l : List Json) (maxDepth currentDepth : Nat) : Bool :=
  match l with
  | [] => true
  | j :: rest =>
    checkJsonDepth j maxDepth currentDepth && checkJsonDepthItems rest maxDepth currentDepth

/-- The `for (const key in obj)` loop of `checkJsonDepth` over an object. -/
def checkJsonDepthFields (l : List (List Char × Json)) (maxDepth currentDepth : Nat) : Bool :=
  match l with
  | [] => true
  | kv :: rest =>
    checkJsonDepth kv.2 maxDepth currentDepth && checkJsonDepthFields rest maxDepth currentDepth
end

mutual
/-- Depth measure the code's check actually enforces: the deepest recursion
level `checkJsonDepth` reaches, i.e. the greatest number of container levels
strictly enclosing any (possibly scalar or empty-container) node. -/
def jsonNodeDepth : Json → Nat
  | .arr items => jsonNodeDepthItems items
  | .obj fields => jsonNodeDepthFields fields
  | _ => 0

def jsonNodeDepthItems : List Json → Nat
  | [] => 0
  | j :: rest => max (jsonNodeDepth j + 1) (jsonNodeDepthItems rest)

def jsonNodeDepthFields : List (List Char × Json) → Nat
  | [] => 0
  | kv :: rest => max (jsonNodeDepth kv.2 + 1) (jsonNodeDepthFields rest)
end

mutual
/-- Nesting depth in the words of the specification: each array or object
level counts as one (so `[]` already has depth 1), scalars have depth 0. -/
def specNestingDepth : Json → Nat
  | .arr items => 1 + specNestingDepthItems items
  | .obj fields => 1 + specNestingDepthFields fields
  | _ => 0

def specNestingDepthItems : List Json → Nat
  | [] => 0
  | j :: rest => max (specNestingDepth j) (specNestingDepthItems rest)

def specNestingDepthFields : List (List Char × Json) → Nat
  | [] => 0
  | kv :: rest => max (specNestingDepth kv.2) (specNestingDepthFields rest)
end

/-- `safeJsonParse`: size gate, host parse (a throw becomes the absence
value), then the depth gate; total by construction, so it never throws. -/
def safeJsonParse (jsonString : List Char) (maxSize maxDepth : Nat) : Json :=
  if ¬ checkJsonSize jsonString maxSize then .null
  else
    match jsonParse jsonString with
    | none => .null
    | some parsed => if ¬ checkJsonDepth parsed maxDepth 0 then .null else parsed

/-! ## SSE frame parser (`parseSSELine`, src/utils/streaming.ts) -/

/-- Default `dataField` option: `'data'`. -/
def defaultDataField : List Char := "data".toList

/-- `parseSSELine(line, options)`, with the options spelled out as
arguments: skip blank and comment lines, require the `dataField` prefix,
trim the payload, recognise the `[DONE]` sentinel, then decode through the
guarded decoder with the raw-text fallback. -/
def parseSSELine (line : List Char) (dataField : List Char) (parseJson : Bool)
    (maxJsonSize maxJsonDepth : Nat) : Json :=
  let trimmed := jsTrim line
  if trimmed.isEmpty then .null
  else if [':'].isPrefixOf trimmed then .null
  else
    let pfx := dataField ++ [':']
    if ¬ (pfx.isPrefixOf trimmed) then .null
    else
      let content := jsTrim (trimmed.drop pfx.length)
      if content = "[DONE]".toList then .null
      else if parseJson then
        let parsed := safeJsonParse content maxJsonSize maxJsonDepth
        if parsed.isNull ∧ ¬ content.isEmpty then .str content else parsed
      else .str content

/-- `parseSSELine(line)` with all options defaulted. -/
def parseSSELineDefault (line : List Char) : Json :=
  parseSSELine line defaultDataField true DEFAULT_MAX_JSON_SIZE DEFAULT_MAX_JSON_DEPTH

/-- The `onData` deliveries of `createSSEParser` for a list of complete
lines: parse each with the default options, drop the `null` results. -/
def emittedData (lines : List (List Char)) : List Json :=
  lines.filterMap (fun line =>
    let d := parseSSELineDefault line
    if d.isNull then none else some d)

/-! ### Depth-check characterization -/

theorem jsonNodeDepthItems_arith (l : List Json) (maxD curD : Nat) :
    curD + jsonNodeDepthItems l ≤ maxD ↔
      curD ≤ maxD ∧ ∀ j ∈ l, curD + 1 + jsonNodeDepth j ≤ maxD := by
  induction l with
  | nil => simp [jsonNodeDepthItems]
  | cons j rest ih =>
    simp only [jsonNodeDepthItems, List.forall_mem_cons]
    constructor
    · intro h
      have h1 : curD + (jsonNodeDepth j + 1) ≤ maxD := by omega
      have h2 : curD + jsonNodeDepthItems rest ≤ maxD := by omega
      rcases ih.mp h2 with ⟨hle, hall⟩
      exact ⟨hle, by omega, hall⟩
    · rintro ⟨hle, hj, hall⟩
      have h2 : curD + jsonNodeDepthItems rest ≤ maxD := ih.mpr ⟨hle, hall⟩
      omega

theorem jsonNodeDepthFields_arith (l : List (List Char × Json)) (maxD curD : Nat) :
    curD + jsonNodeDepthFields l ≤ maxD ↔
      curD ≤ maxD ∧ ∀ kv ∈ l, curD + 1 + jsonNodeDepth kv.2 ≤ maxD := by
  induction l with
  | nil => simp [jsonNodeDepthFields]
  | cons kv rest ih =>
    simp only [jsonNodeDepthFields, List.forall_mem_cons]
    constructor
    · intro h
      have h1 : curD + (jsonNodeDepth kv.2 + 1) ≤ maxD := by omega
      have h2 : curD + jsonNodeDepthFields rest ≤ maxD := by omega
      rcases ih.mp h2 with ⟨hle, hall⟩
      exact ⟨hle, by omega, hall⟩
    · rintro ⟨hle, hj, hall⟩
      have h2 : curD + jsonNodeDepthFields rest ≤ maxD := ih.mpr ⟨hle, hall⟩
      omega

theorem checkJsonDepthItems_iff_of (l : List Json)
    (IH : ∀ j ∈ l, ∀ maxD curD : Nat,
      (checkJsonDepth j maxD curD = true ↔ curD + jsonNodeDepth j ≤ maxD))
    (maxD curD : Nat) :
    checkJsonDepthItems l maxD curD = true ↔ ∀ j ∈ l, curD + jsonNodeDepth j ≤ maxD := by
  induction l with
  | nil => simp [checkJsonDepthItems]
  | cons j rest ih =>
    have hj := IH j (List.mem_cons_self j rest) maxD curD
    have ihr := ih (fun x hx => IH x (List.mem_cons_of_mem j hx))
    simp [checkJsonDepthItems, Bool.and_eq_true, hj, ihr, List.forall_mem_cons]

theorem checkJsonDepthFields_iff_of (l : List (List Char × Json))
    (IH : ∀ kv ∈ l, ∀ maxD curD : Nat,
      (checkJsonDepth kv.2 maxD curD = true ↔ curD + jsonNodeDepth kv.2 ≤ maxD))
    (maxD curD : Nat) :
    checkJsonDepthFields l maxD curD = true ↔ ∀ kv ∈ l, curD + jsonNodeDepth kv.2 ≤ maxD := by
  induction l with
  | nil => simp [checkJsonDepthFields]
  | cons kv rest ih =>
    have hj := IH kv (List.mem_cons_self kv rest) maxD curD
    have ihr := ih (fun x hx => IH x (List.mem_cons_of_mem kv hx))
    simp [checkJsonDepthFields, Bool.and_eq_true, hj, ihr, List.forall_mem_cons]

theorem checkJsonDepth_iff_aux :
    ∀ (n : Nat) (j : Json), sizeOf j ≤ n → ∀ (maxD curD : Nat),
      (checkJsonDepth j maxD curD = true ↔ curD + jsonNodeDepth j ≤ maxD) := by
  intro n
  induction n with
  | zero => intro j hj; cases j <;> simp at hj
  | succ n ih =>
    intro j hj maxD curD
    cases j with
    | arr items =>
      have hmem : ∀ x ∈ items, ∀ maxD curD : Nat,
          (checkJsonDepth x maxD curD = true ↔ curD + jsonNodeDepth x ≤ maxD) := by
        intro x hx
        have h1 : sizeOf x < sizeOf items := List.sizeOf_lt_of_mem hx
        have h2 : sizeOf (Json.arr items) = 1 + sizeOf items := by simp
        exact ih x (by omega)
      by_cases h : curD > maxD
      · simp only [checkJsonDepth, if_pos h, jsonNodeDepth]
        constructor
        · intro hfalse; exact absurd hfalse (by simp)
        · intro hle; omega
      · have heq : checkJsonDepth (Json.arr items) maxD curD =
            checkJsonDepthItems items maxD (curD + 1) := by
          simp [checkJsonDepth, h]
        rw [heq, checkJsonDepthItems_iff_of items hmem, jsonNodeDepth,
          jsonNodeDepthItems_arith]
        constructor
        · intro hall
          exact ⟨by omega, fun x hx => by have := hall x hx; omega⟩
        · rintro ⟨_, hall⟩ x hx
          have := hall x hx; omega
    | obj fields =>
      have hmem : ∀ kv ∈ fields, ∀ maxD curD : Nat,
          (checkJsonDepth kv.2 maxD curD = true ↔ curD + jsonNodeDepth kv.2 ≤ maxD) := by
        intro kv hkv
        have h1 : sizeOf kv < sizeOf fields := List.sizeOf_lt_of_mem hkv
        have h2 : sizeOf (Json.obj fields) = 1 + sizeOf fields := by simp
        have h3 : sizeOf kv.2 < sizeOf kv := by
          cases kv with
          | mk a b => simp
        exact ih kv.2 (by omega)
      by_cases h : curD > maxD
      · simp only [checkJsonDepth, if_pos h, jsonNodeDepth]
        constructor
        · intro hfalse; exact absurd hfalse (by simp)
        · intro hle; omega
      · have heq : checkJsonDepth (Json.obj fields) maxD curD =
            checkJsonDepthFields fields maxD (curD + 1) := by
          simp [checkJsonDepth, h]
        rw [heq, checkJsonDepthFields_iff_of fields hmem, jsonNodeDepth,
          jsonNodeDepthFields_arith]
        constructor
        · intro hall
          exact ⟨by omega, fun x hx => by have := hall x hx; omega⟩
        · rintro ⟨_, hall⟩ x hx
          have := hall x hx; omega
    | null => simp [checkJsonDepth, jsonNodeDepth]
    | bool b => simp [checkJsonDepth, jsonNodeDepth]
    | num lx => simp [checkJsonDepth, jsonNodeDepth]
    | str s => simp [checkJsonDepth, jsonNodeDepth]

/-- The recursive depth check succeeds exactly when every node of the tree
sits within the limit. -/
theorem checkJsonDepth_eq_true_iff (j : Json) (maxD curD : Nat) :
    checkJsonDepth j maxD curD = true ↔ curD + jsonNodeDepth j ≤ maxD :=
  checkJsonDepth_iff_aux (sizeOf j) j le_rfl maxD curD

/-! ## Claims about the line splitter and frame parser -/

/-- Claim C1: for every string and every partition of it into chunks,
feeding the chunks one by one to a fresh `createSSEParser` processes the
same ordered sequence of complete lines (and hence delivers the same
`onData` values) as feeding the string as a single chunk; `feed (a ++ b)`
equals `feed a` followed by `feed b`; and after all feeds the internal
buffer is the suffix of the input after its last line-feed character. -/
theorem C1_lineSplitter_chunk_invariance (chunks : List (List Char)) :
    feedAll sseInit chunks = feed sseInit chunks.flatten
    ∧ emittedData (feedAll sseInit chunks).1 = emittedData (feed sseInit chunks.flatten).1
    ∧ (∀ (st : SSEParserState) (a b : List Char),
        feed st (a ++ b) =
          ((feed st a).1 ++ (feed (feed st a).2 b).1, (feed (feed st a).2 b).2))
    ∧ (feedAll sseInit chunks).2.buffer = tailAfterLastNL chunks.flatten := by
  have hinit : ∀ c ∈ sseInit.buffer, ¬ (c = '\n') := by simp [sseInit]
  have hmain := feedAll_eq_feed_join chunks sseInit hinit
  refine ⟨hmain, by rw [hmain], feed_append, ?_⟩
  rw [hmain, feed_eq_splitLines]
  simp [sseInit, splitLines_remainder_eq_tail]

/-- Claim C2 (amended): `safeJsonParse` is total (never throws) and returns
the decoded value exactly when the input parses as JSON, its UTF-8 byte
length is at most `maxSize`, and every node of the decoded tree lies at
nesting level at most `maxDepth` (the root at level 0, each array element
or object value one level below its container) — equivalently, when the
depth measure that gives scalars and *empty* containers depth 0 and a
non-empty container one plus its deepest child is at most `maxDepth`; in
every other case it returns `null`. -/
theorem C2_safeJsonParse_characterization (s : List Char) (maxSize maxDepth : Nat) :
    safeJsonParse s maxSize maxDepth =
      match jsonParse s with
      | some v =>
          if blobByteSize s ≤ maxSize ∧ jsonNodeDepth v ≤ maxDepth then v else Json.null
      | none => Json.null := by
  by_cases hs : blobByteSize s ≤ maxSize
  · have hsz : checkJsonSize s maxSize = true := by simp [checkJsonSize, hs]
    cases hv : jsonParse s with
    | none => simp [safeJsonParse, hsz, hv]
    | some v =>
      by_cases hd : jsonNodeDepth v ≤ maxDepth
      · have hcd : checkJsonDepth v maxDepth 0 = true :=
          (checkJsonDepth_eq_true_iff v maxDepth 0).mpr (by omega)
        simp [safeJsonParse, hsz, hv, hcd, hs, hd]
      · have hcd : ¬ (checkJsonDepth v maxDepth 0 = true) := by
          rw [checkJsonDepth_eq_true_iff]; omega
        simp [safeJsonParse, hsz, hv, hcd, hd]
  · have hsz : ¬ (checkJsonSize s maxSize = true) := by simp [checkJsonSize, hs]
    cases hv : jsonParse s with
    | none => simp [safeJsonParse, hsz, hv]
    | some v => simp [safeJsonParse, hsz, hv, hs]

/-- Claim C2 counterexample: `"[]"` is well-formed JSON whose decoded tree
has one array level — nesting depth 1 under the claim's "each array or
object level counts as one" — yet with `maxDepth = 0` the code accepts it
and returns the array rather than the absence value: a document of depth
limit + 1 is not rejected. -/
theorem C2_counterexample_empty_array_depth :
    safeJsonParse ("[]".toList) DEFAULT_MAX_JSON_SIZE 0 = Json.arr []
    ∧ specNestingDepth (Json.arr []) = 1
    ∧ ¬ (Json.arr [] = Json.null) :=
  ⟨rfl, rfl, fun h => nomatch h⟩

/-- Claim C3: `parseSSELine` (default options) returns absence on a blank
line, on a comment line, and on a line without the `data:` prefix; on a
`data:` line it trims the payload, returns absence for the `[DONE]`
sentinel, otherwise delegates to the guarded decoder and falls back to the
raw trimmed payload text when decoding yields absence on non-empty text —
in particular `parseSSELine "data: hello"` is the string `"hello"`. -/
theorem C3_parseSSELine_rules :
    (∀ line, jsTrim line = [] → parseSSELineDefault line = Json.null)
    ∧ (∀ line t, jsTrim line = ':' :: t → parseSSELineDefault line = Json.null)
    ∧ (∀ line, ¬ ((defaultDataField ++ [':']).isPrefixOf (jsTrim line) = true) →
        parseSSELineDefault line = Json.null)
    ∧ (∀ line rest, jsTrim line = (defaultDataField ++ [':']) ++ rest →
        parseSSELineDefault line =
          (let content := jsTrim rest
           if content = "[DONE]".toList then Json.null
           else
             let parsed := safeJsonParse content DEFAULT_MAX_JSON_SIZE DEFAULT_MAX_JSON_DEPTH
             if parsed.isNull ∧ ¬ (content = []) then Json.str content else parsed))
    ∧ parseSSELineDefault ("data: hello".toList) = Json.str ("hello".toList) := by
  refine ⟨?_, ?_, ?_, ?_, rfl⟩
  · intro line h
    simp [parseSSELineDefault, parseSSELine, h]
  · intro line t h
    simp [parseSSELineDefault, parseSSELine, h, List.isPrefixOf]
  · intro line hnp
    unfold parseSSELineDefault parseSSELine
    by_cases h1 : (jsTrim line).isEmpty
    · simp [h1]
    · by_cases h2 : [':'].isPrefixOf (jsTrim line)
      · simp [h1, h2]
      · simp [h1, h2, hnp]
  · intro line rest h
    have hd5 : defaultDataField ++ [':'] = 'd' :: 'a' :: 't' :: 'a' :: ':' :: [] := rfl
    rw [hd5] at h
    unfold parseSSELineDefault parseSSELine
    rw [h]
    simp [List.isPrefixOf, List.drop]

/-! ## Canonical events (`IStreamEvent`) and provider adapters -/

/-- The normalized streaming event union (`IStreamEvent`), one variant per
`type` discriminator value, carrying the fields the adapters populate. -/
inductive IStreamEvent where
  | llm_token (content : List Char)
  | tool_content (content : List Char)
  | tool_start (tool_name : List Char) (input : Option (List Char))
  | tool_end (tool_name : List Char) (output : List Char)
  | error (message : List Char)
deriving DecidableEq

/-- JavaScript truthiness of an optional string: `undefined`, `null` and
the empty string are falsy. -/
def jsTruthy : Option (List Char) → Bool
  | some s => !s.isEmpty
  | none => false

/-- Insertion-ordered `Map<number, α>.set`: updating an existing key keeps
its position, a new key is appended (JavaScript `Map` iteration order). -/
def mapSet {α : Type} : List (Nat × α) → Nat → α → List (Nat × α)
  | [], k, v => [(k, v)]
  | (k', v') :: rest, k, v =>
    if k' = k then (k', v) :: rest else (k', v') :: mapSet rest k v

/-- `Map<number, α>.get`. -/
def mapGet {α : Type} : List (Nat × α) → Nat → Option α
  | [], _ => none
  | (k', v) :: rest, k => if k' = k then some v else mapGet rest k

/-- `Map<number, α>.delete`. -/
def mapDelete {α : Type} : List (Nat × α) → Nat → List (Nat × α)
  | [], _ => []
  | (k', v) :: rest, k => if k' = k then rest else (k', v) :: mapDelete rest k

/-! ### OpenAI adapter (src/adapters/openai.ts) -/

/-- `IToolCallState`: a tool call being accumulated across chunks. -/
structure IToolCallState where
  id : List Char
  name : List Char
  arguments : List Char
deriving DecidableEq

structure IOpenAIFunctionDelta where
  name : Option (List Char)
  arguments : Option (List Char)
deriving DecidableEq

structure IOpenAIToolCallDelta where
  index : Option Nat
  id : Option (List Char)
  function : Option IOpenAIFunctionDelta
deriving DecidableEq

structure IOpenAIDelta where
  content : Option (List Char)
  tool_calls : Option (List IOpenAIToolCallDelta)
deriving DecidableEq

structure IOpenAIChoice where
  delta : Option IOpenAIDelta
  finish_reason : Option (List Char)
deriving DecidableEq

/-- `IOpenAIStreamChunk`, restricted to the fields the adapter reads. -/
structure IOpenAIStreamChunk where
  choices : Option (List IOpenAIChoice)
deriving DecidableEq

/-- The default slot id `tool_${index}` used when a frame carries no id. -/
def toolIdDefault (i : Nat) : List Char := "tool_".toList ++ Nat.toDigits 10 i

/-- The `for (const toolCall of delta.tool_calls)` loop: a truthy
`function.name` records the slot and returns `tool_start` immediately; a
truthy `function.arguments` with no name appends to the recorded slot's
partial arguments and the loop continues. -/
def processToolCalls (state : List (Nat × IToolCallState)) :
    List IOpenAIToolCallDelta → Option IStreamEvent × List (Nat × IToolCallState)
  | [] => (none, state)
  | tc :: rest =>
    let index := tc.index.getD 0
    let fnName := tc.function.bind (fun f => f.name)
    let fnArgs := tc.function.bind (fun f => f.arguments)
    if jsTruthy fnName then
      let st' := mapSet state index
        ⟨tc.id.getD (toolIdDefault index), fnName.getD [], fnArgs.getD []⟩
      (some (.tool_start (fnName.getD []) fnArgs), st')
    else
      let state' :=
        if jsTruthy fnArgs then
          match mapGet state index with
          | some existing =>
            mapSet state index ⟨existing.id, existing.name, existing.arguments ++ fnArgs.getD []⟩
          | none => state
        else state
      processToolCalls state' rest

/-- The `finish_reason === 'tool_calls'` branch: the `for … of` loop over
the map returns the `tool_end` of the *first* entry from inside the loop,
so `toolCallsInProgress.clear()` only runs when the map is already empty. -/
def openAIFinish (state : List (Nat × IToolCallState)) (choice : IOpenAIChoice) :
    Option IStreamEvent × List (Nat × IToolCallState) :=
  if choice.finish_reason = some ("tool_calls".toList) then
    match state with
    | [] => (none, [])
    | (_, toolCall) :: _ => (some (.tool_end toolCall.name toolCall.arguments), state)
  else (none, state)

/-- One invocation of the closure returned by `createOpenAIAdapter`, with
the private `toolCallsInProgress` map threaded explicitly.  (The guard for
non-object raw events is outside the model: only object frames reach it.) -/
def openAIAdapterStep (state : List (Nat × IToolCallState)) (chunk : IOpenAIStreamChunk) :
    Option IStreamEvent × List (Nat × IToolCallState) :=
  match chunk.choices.bind List.head? with
  | none => (none, state)
  | some choice =>
    if jsTruthy (choice.delta.bind (fun d => d.content)) then
      (some (.llm_token ((choice.delta.bind (fun d => d.content)).getD [])), state)
    else
      match choice.delta.bind (fun d => d.tool_calls) with
      | some toolCalls =>
        let r := processToolCalls state toolCalls
        match r.1 with
        | some ev => (some ev, r.2)
        | none => openAIFinish r.2 choice
      | none => openAIFinish state choice

/-- A frame whose `tool_calls[0]` carries only `function.name` (slot 0). -/
def openAIToolNameFrame (n : List Char) : IOpenAIStreamChunk :=
  ⟨some [⟨some ⟨none, some [⟨some 0, none, some ⟨some n, none⟩⟩]⟩, none⟩]⟩

/-- A frame whose `tool_calls[0]` carries only a `function.arguments` fragment. -/
def openAIToolArgsFrame (a : List Char) : IOpenAIStreamChunk :=
  ⟨some [⟨some ⟨none, some [⟨some 0, none, some ⟨none, some a⟩⟩]⟩, none⟩]⟩

/-- A frame with `finish_reason = 'tool_calls'` and no delta. -/
def openAIFinishFrame : IOpenAIStreamChunk :=
  ⟨some [⟨none, some ("tool_calls".toList)⟩]⟩

/-! ### Anthropic adapter (src/adapters/anthropic.ts) -/

/-- `IToolUseState`: a tool-use block being accumulated. -/
structure IToolUseState where
  id : List Char
  name : List Char
  input : List Char
deriving DecidableEq

/-- `content_block` of an Anthropic event, restricted to the read fields. -/
structure IAnthropicContentBlock where
  type : List Char
  id : Option (List Char)
  name : Option (List Char)
deriving DecidableEq

structure IAnthropicDelta where
  type : Option (List Char)
  text : Option (List Char)
  partial_json : Option (List Char)
deriving DecidableEq

structure IAnthropicError where
  type : Option (List Char)
  message : Option (List Char)
deriving DecidableEq

/-- `IAnthropicStreamEvent`, restricted to the fields the adapter reads. -/
structure IAnthropicStreamEvent where
  type : List Char
  index : Option Nat
  content_block : Option IAnthropicContentBlock
  delta : Option IAnthropicDelta
  error : Option IAnthropicError
deriving DecidableEq

/-- One invocation of the closure returned by `createAnthropicAdapter`,
with the private `toolUseInProgress` map threaded explicitly; the `switch`
on `event.type` becomes a chain of string comparisons. -/
def anthropicAdapterStep (state : List (Nat × IToolUseState)) (event : IAnthropicStreamEvent) :
    Option IStreamEvent × List (Nat × IToolUseState) :=
  if event.type = "content_block_start".toList then
    match event.content_block with
    | some cb =>
      if cb.type = "tool_use".toList then
        let index := event.index.getD 0
        let st' := mapSet state index
          ⟨cb.id.getD (toolIdDefault index),
            cb.name.getD ("unknown_tool".toList), []⟩
        (some (.tool_start (cb.name.getD ("unknown_tool".toList)) none), st')
      else (none, state)
    | none => (none, state)
  else if event.type = "content_block_delta".toList then
    match event.delta with
    | some d =>
      if d.type = some ("text_delta".toList) ∧ jsTruthy d.text then
        (some (.llm_token (d.text.getD [])), state)
      else if d.type = some ("input_json_delta".toList) ∧ jsTruthy d.partial_json then
        let index := event.index.getD 0
        let st' :=
          match mapGet state index with
          | some existing =>
            mapSet state index ⟨existing.id, existing.name, existing.input ++ d.partial_json.getD []⟩
          | none => state
        (none, st')
      else (none, state)
    | none => (none, state)
  else if event.type = "content_block_stop".toList then
    let index := event.index.getD 0
    match mapGet state index with
    | some toolUse => (some (.tool_end toolUse.name toolUse.input), mapDelete state index)
    | none => (none, state)
  else if event.type = "error".toList then
    (some (.error ((event.error.bind (fun e => e.message)).getD
      ("Unknown Anthropic API error".toList))), state)
  else (none, state)

/-- Run an adapter instance over a sequence of frames, collecting the
emitted events in order (the `if (event) onEvent(event)` filtering). -/
def runAdapter {σ φ : Type} (step : σ → φ → Option IStreamEvent × σ) :
    σ → List φ → List IStreamEvent × σ
  | st, [] => ([], st)
  | st, f :: rest =>
    let r := step st f
    let r2 := runAdapter step r.2 rest
    (r.1.toList ++ r2.1, r2.2)

/-! ## Claims about the adapters -/

/-- Claim C4: on a fresh OpenAI adapter, a frame naming a tool call in
slot 0 yields exactly one `ToolStart`; two subsequent frames carrying only
argument fragments for that slot yield no event and accumulate silently;
a closing `finish_reason = 'tool_calls'` frame yields exactly one `ToolEnd`
whose output is the two fragments concatenated in arrival order. -/
theorem C4_openAI_tool_call_assembly (n a b : List Char) (hn : ¬ n = []) :
    openAIAdapterStep [] (openAIToolNameFrame n) =
      (some (.tool_start n none), [(0, ⟨toolIdDefault 0, n, []⟩)])
    ∧ openAIAdapterStep [(0, ⟨toolIdDefault 0, n, []⟩)] (openAIToolArgsFrame a) =
      (none, [(0, ⟨toolIdDefault 0, n, a⟩)])
    ∧ openAIAdapterStep [(0, ⟨toolIdDefault 0, n, a⟩)] (openAIToolArgsFrame b) =
      (none, [(0, ⟨toolIdDefault 0, n, a ++ b⟩)])
    ∧ openAIAdapterStep [(0, ⟨toolIdDefault 0, n, a ++ b⟩)] openAIFinishFrame =
      (some (.tool_end n (a ++ b)), [(0, ⟨toolIdDefault 0, n, a ++ b⟩)]) := by
  obtain ⟨c, cs, rfl⟩ := List.exists_cons_of_ne_nil hn
  cases a with
  | nil => cases b with
    | nil => exact ⟨rfl, rfl, rfl, rfl⟩
    | cons y ys => exact ⟨rfl, rfl, rfl, rfl⟩
  | cons x xs => cases b with
    | nil => exact ⟨rfl, rfl, by simp [openAIAdapterStep, processToolCalls, jsTruthy,
        openAIToolArgsFrame, mapGet, mapSet, openAIFinish], rfl⟩
    | cons y ys => exact ⟨rfl, rfl, rfl, rfl⟩

theorem C4_openAI_tool_call_assembly_witness :
    ¬ ("search".toList = ([] : List Char))
    ∧ (openAIAdapterStep [] (openAIToolNameFrame ("search".toList)) =
        (some (.tool_start ("search".toList) none),
          [(0, ⟨toolIdDefault 0, "search".toList, []⟩)])
      ∧ openAIAdapterStep [(0, ⟨toolIdDefault 0, "search".toList, []⟩)]
          (openAIToolArgsFrame ("ab".toList)) =
        (none, [(0, ⟨toolIdDefault 0, "search".toList, "ab".toList⟩)])
      ∧ openAIAdapterStep [(0, ⟨toolIdDefault 0, "search".toList, "ab".toList⟩)]
          (openAIToolArgsFrame ("cd".toList)) =
        (none, [(0, ⟨toolIdDefault 0, "search".toList, "ab".toList ++ "cd".toList⟩)])
      ∧ openAIAdapterStep [(0, ⟨toolIdDefault 0, "search".toList, "ab".toList ++ "cd".toList⟩)]
          openAIFinishFrame =
        (some (.tool_end ("search".toList) ("ab".toList ++ "cd".toList)),
          [(0, ⟨toolIdDefault 0, "search".toList, "ab".toList ++ "cd".toList⟩)])) :=
  ⟨by decide, C4_openAI_tool_call_assembly ("search".toList) ("ab".toList) ("cd".toList) (by decide)⟩

/-- Claim C5 (code bug witnessed): with one slot accumulated, a
`finish_reason = 'tool_calls'` frame emits its `ToolEnd` but — because the
code returns from inside the loop before `toolCallsInProgress.clear()` —
leaves the slot in the state, so an identical second finish frame emits a
further `ToolEnd`; and with two slots accumulated only the first slot's
`ToolEnd` is emitted, not one per slot. -/
theorem C5_finish_emits_again_and_keeps_state :
    openAIAdapterStep [(0, ⟨"id0".toList, "search".toList, "ab".toList⟩)] openAIFinishFrame =
      (some (.tool_end ("search".toList) ("ab".toList)),
        [(0, ⟨"id0".toList, "search".toList, "ab".toList⟩)])
    ∧ openAIAdapterStep
        (openAIAdapterStep [(0, ⟨"id0".toList, "search".toList, "ab".toList⟩)]
          openAIFinishFrame).2 openAIFinishFrame =
      (some (.tool_end ("search".toList) ("ab".toList)),
        [(0, ⟨"id0".toList, "search".toList, "ab".toList⟩)])
    ∧ (openAIAdapterStep
        [(0, ⟨"id0".toList, "search".toList, "ab".toList⟩),
          (1, ⟨"id1".toList, "other".toList, "xy".toList⟩)] openAIFinishFrame).1 =
      some (.tool_end ("search".toList) ("ab".toList)) :=
  ⟨rfl, rfl, rfl⟩

/-- Claim C6: on a fresh Anthropic adapter, a `content_block_start` whose
`content_block.type` is `tool_use` at index `i` yields exactly one
`ToolStart`; an immediately following `content_block_stop` for the same
index yields exactly one `ToolEnd` with empty output and removes the slot,
so a second `content_block_stop` for that index yields no event. -/
theorem C6_anthropic_start_then_stop (i : Nat) (cbId cbName : Option (List Char)) :
    anthropicAdapterStep []
        ⟨"content_block_start".toList, some i, some ⟨"tool_use".toList, cbId, cbName⟩,
          none, none⟩ =
      (some (.tool_start (cbName.getD ("unknown_tool".toList)) none),
        [(i, ⟨cbId.getD (toolIdDefault i),
          cbName.getD ("unknown_tool".toList), []⟩)])
    ∧ anthropicAdapterStep
        [(i, ⟨cbId.getD (toolIdDefault i),
          cbName.getD ("unknown_tool".toList), []⟩)]
        ⟨"content_block_stop".toList, some i, none, none, none⟩ =
      (some (.tool_end (cbName.getD ("unknown_tool".toList)) []), [])
    ∧ anthropicAdapterStep [] ⟨"content_block_stop".toList, some i, none, none, none⟩ =
      (none, []) := by
  refine ⟨?_, ?_, ?_⟩
  · simp [anthropicAdapterStep, mapSet]
  · simp [anthropicAdapterStep, mapGet, mapDelete]
  · simp [anthropicAdapterStep, mapGet]

/-! ## Claim C9: instance isolation -/

/-- Two adapter instances fed an interleaved frame sequence: a `Sum.inl`
frame goes to instance A, a `Sum.inr` frame to instance B; the events each
instance emits are collected separately and both final states returned. -/
def runInterleaved {σ τ φ ψ : Type} (stepA : σ → φ → Option IStreamEvent × σ)
    (stepB : τ → ψ → Option IStreamEvent × τ) :
    σ → τ → List (φ ⊕ ψ) → (List IStreamEvent × List IStreamEvent × σ × τ)
  | sA, sB, [] => ([], [], sA, sB)
  | sA, sB, .inl f :: rest =>
    let r := stepA sA f
    let rr := runInterleaved stepA stepB r.2 sB rest
    (r.1.toList ++ rr.1, rr.2.1, rr.2.2.1, rr.2.2.2)
  | sA, sB, .inr f :: rest =>
    let r := stepB sB f
    let rr := runInterleaved stepA stepB sA r.2 rest
    (rr.1, r.1.toList ++ rr.2.1, rr.2.2.1, rr.2.2.2)

/-- The frames an interleaving directs at instance A. -/
def framesA {φ ψ : Type} (seq : List (φ ⊕ ψ)) : List φ :=
  seq.filterMap (fun x => match x with | .inl f => some f | .inr _ => none)

/-- The frames an interleaving directs at instance B. -/
def framesB {φ ψ : Type} (seq : List (φ ⊕ ψ)) : List ψ :=
  seq.filterMap (fun x => match x with | .inl _ => none | .inr f => some f)

theorem runInterleaved_left {σ τ φ ψ : Type} (stepA : σ → φ → Option IStreamEvent × σ)
    (stepB : τ → ψ → Option IStreamEvent × τ) (sA : σ) (sB : τ) (seq : List (φ ⊕ ψ)) :
    (runInterleaved stepA stepB sA sB seq).1 = (runAdapter stepA sA (framesA seq)).1
    ∧ (runInterleaved stepA stepB sA sB seq).2.2.1 = (runAdapter stepA sA (framesA seq)).2 := by
  induction seq generalizing sA sB with
  | nil => exact ⟨rfl, rfl⟩
  | cons x rest ih =>
    cases x with
    | inl f =>
      obtain ⟨h1, h2⟩ := ih (stepA sA f).2 sB
      constructor
      · have e : (runInterleaved stepA stepB sA sB (.inl f :: rest)).1
            = (stepA sA f).1.toList
              ++ (runInterleaved stepA stepB (stepA sA f).2 sB rest).1 := rfl
        rw [e, h1]
        rfl
      · have e : (runInterleaved stepA stepB sA sB (.inl f :: rest)).2.2.1
            = (runInterleaved stepA stepB (stepA sA f).2 sB rest).2.2.1 := rfl
        rw [e, h2]
        rfl
    | inr f =>
      obtain ⟨h1, h2⟩ := ih sA (stepB sB f).2
      exact ⟨h1, h2⟩

theorem runInterleaved_right {σ τ φ ψ : Type} (stepA : σ → φ → Option IStreamEvent × σ)
    (stepB : τ → ψ → Option IStreamEvent × τ) (sA : σ) (sB : τ) (seq : List (φ ⊕ ψ)) :
    (runInterleaved stepA stepB sA sB seq).2.1 = (runAdapter stepB sB (framesB seq)).1
    ∧ (runInterleaved stepA stepB sA sB seq).2.2.2 = (runAdapter stepB sB (framesB seq)).2 := by
  induction seq generalizing sA sB with
  | nil => exact ⟨rfl, rfl⟩
  | cons x rest ih =>
    cases x with
    | inl f =>
      obtain ⟨h1, h2⟩ := ih (stepA sA f).2 sB
      exact ⟨h1, h2⟩
    | inr f =>
      obtain ⟨h1, h2⟩ := ih sA (stepB sB f).2
      constructor
      · have e : (runInterleaved stepA stepB sA sB (.inr f :: rest)).2.1
            = (stepB sB f).1.toList
              ++ (runInterleaved stepA stepB sA (stepB sB f).2 rest).2.1 := rfl
        rw [e, h1]
        rfl
      · have e : (runInterleaved stepA stepB sA sB (.inr f :: rest)).2.2.2
            = (runInterleaved stepA stepB sA (stepB sB f).2 rest).2.2.2 := rfl
        rw [e, h2]
        rfl

/-- Claim C9: adapter instances are isolated.  For fresh OpenAI and
Anthropic instances fed any interleaved sequence of frames, each
instance's emitted events and final accumulation state are exactly those
of running its own frame subsequence alone on a fresh instance — frames
fed to the other instance never influence them.  Stated for an OpenAI
instance beside an Anthropic one, for two OpenAI instances, and for two
Anthropic instances. -/
theorem C9_adapter_instances_isolated :
    (∀ seq : List (IOpenAIStreamChunk ⊕ IAnthropicStreamEvent),
      (runInterleaved openAIAdapterStep anthropicAdapterStep [] [] seq).1 =
        (runAdapter openAIAdapterStep [] (framesA seq)).1
      ∧ (runInterleaved openAIAdapterStep anthropicAdapterStep [] [] seq).2.2.1 =
        (runAdapter openAIAdapterStep [] (framesA seq)).2
      ∧ (runInterleaved openAIAdapterStep anthropicAdapterStep [] [] seq).2.1 =
        (runAdapter anthropicAdapterStep [] (framesB seq)).1
      ∧ (runInterleaved openAIAdapterStep anthropicAdapterStep [] [] seq).2.2.2 =
        (runAdapter anthropicAdapterStep [] (framesB seq)).2)
    ∧ (∀ seq : List (IOpenAIStreamChunk ⊕ IOpenAIStreamChunk),
      (runInterleaved openAIAdapterStep openAIAdapterStep [] [] seq).1 =
        (runAdapter openAIAdapterStep [] (framesA seq)).1
      ∧ (runInterleaved openAIAdapterStep openAIAdapterStep [] [] seq).2.2.1 =
        (runAdapter openAIAdapterStep [] (framesA seq)).2)
    ∧ (∀ seq : List (IAnthropicStreamEvent ⊕ IAnthropicStreamEvent),
      (runInterleaved anthropicAdapterStep anthropicAdapterStep [] [] seq).1 =
        (runAdapter anthropicAdapterStep [] (framesA seq)).1
      ∧ (runInterleaved anthropicAdapterStep anthropicAdapterStep [] [] seq).2.2.1 =
        (runAdapter anthropicAdapterStep [] (framesA seq)).2) := by
  refine ⟨fun seq => ?_, fun seq => ?_, fun seq => ?_⟩
  · obtain ⟨h1, h2⟩ := runInterleaved_left openAIAdapterStep anthropicAdapterStep [] [] seq
    obtain ⟨h3, h4⟩ := runInterleaved_right openAIAdapterStep anthropicAdapterStep [] [] seq
    exact ⟨h1, h2, h3, h4⟩
  · exact runInterleaved_left openAIAdapterStep openAIAdapterStep [] [] seq
  · exact runInterleaved_left anthropicAdapterStep anthropicAdapterStep [] [] seq

/-! ## Stream driver (`streamSSE`, src/utils/streaming.ts)

The network is abstracted as the sequence of outcomes of the awaited
operations: the `fetch` call and each `reader.read()`.  An abort signalled
through the `AbortSignal` manifests as the pending operation rejecting
with an `AbortError` — before the response it is the `fetch` promise that
rejects, mid-stream it is the pending `read`. -/

/-- Outcome of one `reader.read()` await. -/
inductive ReadOutcome where
  | chunk (s : List Char)
  | done
  | abortErr
  | failErr (msg : List Char)

/-- Outcome of the `fetch` await (with the non-ok and null-body cases of
the response folded in, since the driver turns them into thrown errors). -/
inductive FetchOutcome where
  | ok (bodyPresent : Bool) (reads : List ReadOutcome)
  | httpError (errorText : List Char)
  | abortErr
  | netErr (msg : List Char)

/-- The observable callback activity of one `streamSSE` run. -/
structure DriverCalls where
  events : List IStreamEvent
  completeCalls : Nat
  errorCalls : Nat
deriving DecidableEq

/-- The `onData` handler of the driver's parser: parse each complete line
(default options), feed non-null payloads to the adapter, emit events. -/
def processLines {σ : Type} (step : σ → Json → Option IStreamEvent × σ) :
    σ → List (List Char) → List IStreamEvent × σ
  | ad, [] => ([], ad)
  | ad, line :: rest =>
    let d := parseSSELineDefault line
    if d.isNull then processLines step ad rest
    else
      let r := step ad d
      let r2 := processLines step r.2 rest
      (r.1.toList ++ r2.1, r2.2)

/-- The `while (true)` read loop.  Exit `some true` models reaching
`onComplete` (stream done, or `AbortError` caught by the inner handler);
`some false` models a non-abort read failure rethrown to the outer
handler; `none` models a loop still awaiting input. -/
def readLoop {σ : Type} (step : σ → Json → Option IStreamEvent × σ) :
    σ → SSEParserState → List ReadOutcome → List IStreamEvent × Option Bool
  | _, _, [] => ([], none)
  | ad, sse, ro :: rest =>
    match ro with
    | .done => ([], some true)
    | .abortErr => ([], some true)
    | .failErr _ => ([], some false)
    | .chunk s =>
      let fr := feed sse s
      let pr := processLines step ad fr.1
      let r2 := readLoop step pr.2 fr.2 rest
      (pr.1 ++ r2.1, r2.2)

/-- One `streamSSE` run: a rejected `fetch` (abort or network), a non-ok
status and a missing body all reach the outer `catch` and call `onError`;
an ok response drives the read loop, whose completion or caught abort
calls `onComplete` and whose rethrown failure calls `onError`. -/
def streamSSEModel {σ : Type} (step : σ → Json → Option IStreamEvent × σ) (adInit : σ) :
    FetchOutcome → DriverCalls
  | .abortErr => ⟨[], 0, 1⟩
  | .netErr _ => ⟨[], 0, 1⟩
  | .httpError _ => ⟨[], 0, 1⟩
  | .ok false _ => ⟨[], 0, 1⟩
  | .ok true reads =>
    let r := readLoop step adInit sseInit reads
    match r.2 with
    | some true => ⟨r.1, 1, 0⟩
    | some false => ⟨r.1, 0, 1⟩
    | none => ⟨r.1, 0, 0⟩

/-- An adapter instance that never emits (adapters returning no event for
every frame are an expected, frequent case); the driver's behavior before
the first read is independent of the adapter. -/
def silentAdapterStep (s : Unit) (_ : Json) : Option IStreamEvent × Unit := (none, s)

theorem readLoop_abort_exit {σ : Type} (step : σ → Json → Option IStreamEvent × σ) :
    ∀ (pre : List (List Char)) (ad : σ) (sse : SSEParserState) (rest : List ReadOutcome),
      (readLoop step ad sse (pre.map ReadOutcome.chunk ++ ReadOutcome.abortErr :: rest)).2
        = some true := by
  intro pre
  induction pre with
  | nil => intro ad sse rest; rfl
  | cons c cs ih =>
    intro ad sse rest
    simp only [List.map_cons, List.cons_append, readLoop]
    exact ih _ _ rest

/-- Claim C7 (amended): cancellation observed while the body is being read
— the pending `reader.read()` rejecting with `AbortError` after any number
of chunks — makes the driver call `onComplete` exactly once and `onError`
never, whatever the adapter; but cancellation that manifests before the
response, as the `fetch` await rejecting with `AbortError`, is caught by
the outer handler and reported through `onError` instead. -/
theorem C7_cancellation_paths {σ : Type} (step : σ → Json → Option IStreamEvent × σ)
    (adInit : σ) (pre : List (List Char)) (rest : List ReadOutcome) :
    (streamSSEModel step adInit
        (.ok true (pre.map ReadOutcome.chunk ++ ReadOutcome.abortErr :: rest))).completeCalls = 1
    ∧ (streamSSEModel step adInit
        (.ok true (pre.map ReadOutcome.chunk ++ ReadOutcome.abortErr :: rest))).errorCalls = 0
    ∧ (streamSSEModel step adInit FetchOutcome.abortErr).errorCalls = 1
    ∧ (streamSSEModel step adInit FetchOutcome.abortErr).completeCalls = 0 := by
  have h := readLoop_abort_exit step pre adInit sseInit rest
  refine ⟨?_, ?_, rfl, rfl⟩ <;> simp [streamSSEModel, h]

/-- Claim C7 counterexample: a run whose cancellation is signalled before
the response arrives — the `fetch` await rejects with `AbortError` — calls
`onError` once and `onComplete` never, so cancellation is *not* always
resolved via `onComplete`. -/
theorem C7_counterexample_abort_before_response :
    streamSSEModel silentAdapterStep () FetchOutcome.abortErr =
      ⟨[], 0, 1⟩ := rfl

/-! ## Message accumulation state machine (`useChatMessages`, src/hooks/useChatMessages.ts) -/

/-- A chat message (`IMessage`), with attached files reduced to their
uuids and the `Date` timestamp to a number. -/
structure IMessage where
  id : List Char
  role : List Char
  content : List Char
  attachedFiles : Option (List (List Char))
  timestamp : Nat
deriving DecidableEq

/-- An `IContentSegment` (the hook only ever creates text segments). -/
structure IContentSegment where
  type : List Char
  content : List Char
deriving DecidableEq

/-- The hook's state: the `messages` array, the `isStreaming` flag, the
uploaded PDFs, the three streaming refs, and whether `abortControllerRef`
currently holds a controller. -/
structure ChatState where
  messages : List IMessage
  isStreaming : Bool
  uploadedPdfs : List (List Char)
  accumulatedContent : List Char
  contentSegments : List IContentSegment
  currentTextSegment : List Char
  abortActive : Bool
deriving DecidableEq

/-- The hook's initial state. -/
def chatInit : ChatState := ⟨[], false, [], [], [], [], false⟩

/-- `trimMessages`: cap the history at `maxMessages` entries, dropping the
oldest (`msgs.slice(-maxMessages)`); `0` means unlimited. -/
def trimMessages (maxMessages : Nat) (msgs : List IMessage) : List IMessage :=
  if maxMessages = 0 ∨ msgs.length ≤ maxMessages then msgs
  else msgs.drop (msgs.length - maxMessages)

/-- The synchronous prefix of `sendMessage`, up to the `await` of the
network call: reject blank input, append the user message, append the
empty assistant placeholder, reset the accumulation refs, set
`isStreaming`, install a fresh `AbortController` and clear the PDFs. -/
def sendMessageStart (st : ChatState) (userInput : List Char)
    (userId assistantId : List Char) (ts : Nat) (maxMessages : Nat) : ChatState :=
  if (jsTrim userInput).isEmpty then st
  else
    let userMessage : IMessage := ⟨userId, "user".toList, userInput,
      (if st.uploadedPdfs.isEmpty then none else some st.uploadedPdfs), ts⟩
    let m1 := trimMessages maxMessages (st.messages ++ [userMessage])
    let assistantMessage : IMessage := ⟨assistantId, "assistant".toList, [], none, ts⟩
    let m2 := trimMessages maxMessages (m1 ++ [assistantMessage])
    ⟨m2, true, [], [], [], [], true⟩

/-- `stopStreaming`: when a controller is active, abort it, reset the
accumulation refs, stop streaming, and remove the last message when it is
an assistant message whose content trims to nothing. -/
def stopStreaming (st : ChatState) : ChatState :=
  if st.abortActive then
    let remaining :=
      match st.messages.getLast? with
      | some lastMessage =>
        if lastMessage.role = "assistant".toList ∧ (jsTrim lastMessage.content).isEmpty then
          st.messages.dropLast
        else st.messages
      | none => st.messages
    ⟨remaining, false, st.uploadedPdfs, [], [], [], false⟩
  else st

/-- Claim C8 (amended): cancelling a turn before any token event leaves
the conversation history equal to the pre-turn history *plus the user
message of the turn*: the empty assistant placeholder is removed, but the
user message remains (so the history is not literally "exactly as it was
before the turn began"). -/
theorem C8_cancel_before_tokens (st : ChatState) (userInput userId assistantId : List Char)
    (ts : Nat) (h : ¬ (jsTrim userInput).isEmpty = true) :
    (stopStreaming (sendMessageStart st userInput userId assistantId ts 0)).messages
      = st.messages ++ [⟨userId, "user".toList, userInput,
          (if st.uploadedPdfs.isEmpty then none else some st.uploadedPdfs), ts⟩] := by
  simp only [sendMessageStart, h, if_false, trimMessages, stopStreaming]
  simp [jsTrim]

theorem C8_cancel_before_tokens_witness :
    ¬ (jsTrim ("hi".toList)).isEmpty = true
    ∧ (stopStreaming (sendMessageStart chatInit ("hi".toList) ("u1".toList) ("a1".toList) 5 0)).messages
      = chatInit.messages ++ [⟨"u1".toList, "user".toList, "hi".toList,
          (if chatInit.uploadedPdfs.isEmpty then none else some chatInit.uploadedPdfs), 5⟩] :=
  ⟨by decide, C8_cancel_before_tokens chatInit ("hi".toList) ("u1".toList) ("a1".toList) 5 (by decide)⟩

/-- Claim C8 counterexample: from an empty history, sending `"hi"` and
cancelling before any token leaves `[the user message]`, not the empty
pre-turn history — the history is not exactly as it was before the turn. -/
theorem C8_counterexample_user_message_remains :
    (stopStreaming (sendMessageStart chatInit ("hi".toList) ("u1".toList) ("a1".toList) 0 0)).messages
      = [⟨"u1".toList, "user".toList, "hi".toList, none, 0⟩]
    ∧ ¬ ((stopStreaming (sendMessageStart chatInit ("hi".toList) ("u1".toList) ("a1".toList) 0 0)).messages
      = chatInit.messages) :=
  ⟨by decide, by decide⟩

/-- Claim C10: the payload `null` is well-formed JSON decoding to the null
value, which is the absence value itself, so the guarded decode is
indistinguishable from a failure and `parseSSELine` falls back to the raw
trimmed text — the four-character string `"null"`; and a `data:` line with
an empty payload yields absence. -/
theorem C10_null_payload_and_empty_payload :
    parseSSELineDefault ("data: null".toList) = Json.str ("null".toList)
    ∧ jsonParse ("null".toList) = some Json.null
    ∧ safeJsonParse ("null".toList) DEFAULT_MAX_JSON_SIZE DEFAULT_MAX_JSON_DEPTH = Json.null
    ∧ parseSSELineDefault ("data: ".toList) = Json.null :=
  ⟨rfl, rfl, rfl, rfl⟩

end Pulse8
